import Mathlib

/-!
# Syncrules sync core — verification of the specification against the source

This file shallowly embeds the sync core of the Syncrules repository
(`internal/domain`, `internal/core/diff`, `internal/core/conflict`,
`internal/core/planner`, `internal/service/sync.go`, `internal/lock`,
`internal/progress`, `internal/adapter/local`) and proves or refutes the
frozen claims about it.

Modelling conventions:
* `time.Time` values are modelled as `Int` nanosecond instants;
  `Equal` is `=`, `After` is `>`, `Before` is `<`.
* Go strings are modelled as Lean `String`/`List Char`; byte-level
  operations of the Go standard library are modelled character-wise,
  which coincides with Go on ASCII data.
* Go maps `map[string]FileInfo` are modelled as association lists
  `List (String × FileInfo)`; where a claim depends on map semantics the
  theorem assumes the key list is duplicate-free, which holds for every
  map.
-/

/-- `domain.FileType` (domain/file.go). -/
inductive FileType where
  | regular
  | directory
  | symlink
deriving DecidableEq, Repr

/-- `domain.FileInfo` (domain/file.go); `ModTime` is an `Int` instant. -/
structure FileInfo where
  path : String
  type : FileType
  size : Int
  modTime : Int
  checksum : String
  etag : String
  isDeleted : Bool
deriving DecidableEq, Repr

/-- `FileInfo.IsDir` (domain/file.go). -/
def FileInfo.IsDir (f : FileInfo) : Bool :=
  f.type = FileType.directory

/-- `FileInfo.IsFile` (domain/file.go). -/
def FileInfo.IsFile (f : FileInfo) : Bool :=
  f.type = FileType.regular

/-- `domain.ConflictStrategy` (domain/rule.go). -/
inductive ConflictStrategy where
  | keepLocal
  | keepRemote
  | keepNewest
  | manual
deriving DecidableEq, Repr

/-- `domain.ActionType` (domain/rule.go): the five defined action values. -/
inductive ActionType where
  | copy
  | delete
  | mkdir
  | conflict
  | skip
deriving DecidableEq, Repr

/-- `domain.SyncDirection` (domain/rule.go). -/
inductive SyncDirection where
  | sourceToTarget
  | targetToSource
deriving DecidableEq, Repr

/-- `domain.SyncAction` (domain/rule.go). -/
structure SyncAction where
  type : ActionType
  direction : SyncDirection
  path : String
  sourceInfo : Option FileInfo
  targetInfo : Option FileInfo
  reason : String
deriving DecidableEq, Repr

/-- `domain.SyncRule` (domain/rule.go); only the fields the planner and
resolver read are kept (`Mode`, endpoints and `Enabled` are consumed by
the out-of-scope orchestration layer). -/
structure SyncRule where
  name : String
  ignorePatterns : List String
  conflictStrategy : ConflictStrategy
deriving DecidableEq, Repr

/-- `diff.DiffResult` (core/diff/diff.go). -/
inductive DiffResult where
  | filesIdentical
  | fileModified
  | fileOnlyInSource
  | fileOnlyInTarget
deriving DecidableEq, Repr

/-- `diff.DefaultComparer.Compare` (core/diff/diff.go).  The two pointer
arguments become `Option FileInfo`. -/
def Compare (src tgt : Option FileInfo) : DiffResult :=
  match src, tgt with
  | none, none => DiffResult.filesIdentical
  | some _, none => DiffResult.fileOnlyInSource
  | none, some _ => DiffResult.fileOnlyInTarget
  | some s, some t =>
    if s.IsFile ∧ t.IsFile then
      if s.size ≠ t.size then DiffResult.fileModified
      else if s.modTime ≠ t.modTime then
        if s.checksum ≠ "" ∧ t.checksum ≠ "" then
          if s.checksum = t.checksum then DiffResult.filesIdentical
          else DiffResult.fileModified
        else if s.checksum = "" ∧ t.checksum = "" then DiffResult.filesIdentical
        else if s.modTime > t.modTime then DiffResult.fileModified
        else DiffResult.fileModified
      else DiffResult.filesIdentical
    else DiffResult.fileModified

/-- `conflict.DefaultResolver.Resolve` (core/conflict, the implementation
shipped alongside `resolver_test.go`). -/
def Resolve (strategy : ConflictStrategy) (path : String)
    (src tgt : Option FileInfo) : SyncAction :=
  match src, tgt with
  | some s, some t =>
    match strategy with
    | ConflictStrategy.keepLocal =>
      { type := ActionType.skip, direction := SyncDirection.sourceToTarget,
        path := path, sourceInfo := some s, targetInfo := some t,
        reason := "keeping local version (conflict strategy)" }
    | ConflictStrategy.keepRemote =>
      { type := ActionType.copy, direction := SyncDirection.sourceToTarget,
        path := path, sourceInfo := some s, targetInfo := some t,
        reason := "using remote version (conflict strategy)" }
    | ConflictStrategy.keepNewest =>
      if s.modTime > t.modTime then
        { type := ActionType.copy, direction := SyncDirection.sourceToTarget,
          path := path, sourceInfo := some s, targetInfo := some t,
          reason := "source is newer" }
      else if t.modTime > s.modTime then
        { type := ActionType.copy, direction := SyncDirection.targetToSource,
          path := path, sourceInfo := some s, targetInfo := some t,
          reason := "target is newer" }
      else if s.size = t.size then
        { type := ActionType.skip, direction := SyncDirection.sourceToTarget,
          path := path, sourceInfo := some s, targetInfo := some t,
          reason := "identical modification time and size" }
      else
        { type := ActionType.conflict, direction := SyncDirection.sourceToTarget,
          path := path, sourceInfo := some s, targetInfo := some t,
          reason := "identical time but different size" }
    | ConflictStrategy.manual =>
      { type := ActionType.conflict, direction := SyncDirection.sourceToTarget,
        path := path, sourceInfo := some s, targetInfo := some t,
        reason := "manual resolution required" }
  | _, _ =>
    { type := ActionType.conflict, direction := SyncDirection.sourceToTarget,
      path := path, sourceInfo := src, targetInfo := tgt,
      reason := "manual resolution required: nil file info" }

/-! ## Glob matching (`path/filepath.Match`, Unix build)

The planner's ignore filter calls `filepath.Match`.  The functions below
translate `Match`, `scanChunk`, `matchChunk` and `getEsc` from the Go
standard library (`path/filepath/match.go`, `runtime.GOOS != "windows"`,
`Separator = '/'`).  Go operates on bytes and decodes runes from the
name; the model works character-wise, which coincides with Go on ASCII
patterns and names.  `none` models `ErrBadPattern`. -/

/-- The leading-star loop of `scanChunk`: strip `*`s, remembering whether
any was seen. -/
def stripStars : List Char → Bool × List Char
  | '*' :: cs => (true, (stripStars cs).2)
  | cs => (false, cs)

/-- The scan loop of `scanChunk`: split off the next chunk, stopping at an
unbracketed `*`; a backslash escapes the following character. -/
def scanBody : List Char → Bool → List Char × List Char
  | [], _ => ([], [])
  | '\\' :: cs, inrange =>
    match cs with
    | [] => (['\\'], [])
    | d :: ds =>
      let r := scanBody ds inrange
      ('\\' :: d :: r.1, r.2)
  | '[' :: cs, _ =>
    let r := scanBody cs true
    ('[' :: r.1, r.2)
  | ']' :: cs, _ =>
    let r := scanBody cs false
    (']' :: r.1, r.2)
  | '*' :: cs, inrange =>
    if inrange then
      let r := scanBody cs inrange
      ('*' :: r.1, r.2)
    else ([], '*' :: cs)
  | c :: cs, inrange =>
    let r := scanBody cs inrange
    (c :: r.1, r.2)

/-- `filepath.scanChunk`: `(star, chunk, rest)`. -/
def scanChunk (pattern : List Char) : Bool × List Char × List Char :=
  let s := stripStars pattern
  let r := scanBody s.2 false
  (s.1, r.1, r.2)

/-- `filepath.getEsc`: read one (possibly escaped) class character. -/
def getEsc : List Char → Option (Char × List Char)
  | [] => none
  | c :: cs =>
    if c = '-' ∨ c = ']' then none
    else if c = '\\' then
      match cs with
      | [] => none
      | r :: rest => if rest.isEmpty then none else some (r, rest)
    else if cs.isEmpty then none else some (c, cs)

/-- The range-parsing loop of `matchChunk`'s `[` case: `r` is the rune
taken from the name, the result is the accumulated match flag and the
chunk remaining after the closing `]`.  The two `getEsc` calls of the Go
loop are inlined (their case analysis is spelled out) so that the
recursion is structural; evaluating the inlined branches step by step
reproduces `getEsc` exactly. -/
def matchRanges (r : Char) : List Char → Nat → Bool → Option (Bool × List Char)
  | ']' :: rest, _ + 1, acc => some (acc, rest)
  | [], _, _ => none
  | c :: cs, nrange, acc =>
    -- inlined: getEsc (c :: cs) = some (lo, c1 :: rest1) or bad pattern
    if c = '-' ∨ c = ']' then none
    else if c = '\\' then
      match cs with
      | lo :: c1 :: rest1 =>
        if c1 = '-' then
          -- inlined: getEsc rest1 = some (hi, chunk2) or bad pattern
          match rest1 with
          | [] => none
          | d :: ds =>
            if d = '-' ∨ d = ']' then none
            else if d = '\\' then
              match ds with
              | hi :: e :: es =>
                matchRanges r (e :: es) (nrange + 1) (acc || decide (lo ≤ r ∧ r ≤ hi))
              | _ => none
            else
              match ds with
              | x :: xs =>
                matchRanges r (x :: xs) (nrange + 1) (acc || decide (lo ≤ r ∧ r ≤ d))
              | [] => none
        else matchRanges r (c1 :: rest1) (nrange + 1) (acc || decide (lo ≤ r ∧ r ≤ lo))
      | _ => none
    else
      match cs with
      | c1 :: rest1 =>
        if c1 = '-' then
          -- inlined: getEsc rest1 = some (hi, chunk2) or bad pattern
          match rest1 with
          | [] => none
          | d :: ds =>
            if d = '-' ∨ d = ']' then none
            else if d = '\\' then
              match ds with
              | hi :: e :: es =>
                matchRanges r (e :: es) (nrange + 1) (acc || decide (c ≤ r ∧ r ≤ hi))
              | _ => none
            else
              match ds with
              | x :: xs =>
                matchRanges r (x :: xs) (nrange + 1) (acc || decide (c ≤ r ∧ r ≤ d))
              | [] => none
        else matchRanges r (c1 :: rest1) (nrange + 1) (acc || decide (c ≤ r ∧ r ≤ c))
      | [] => none
  termination_by chunk _ _ => chunk.length
  decreasing_by all_goals simp +arith [List.length]

theorem matchRanges_length {r : Char} :
    ∀ fuel chunk, chunk.length ≤ fuel → ∀ {n : Nat} {acc m : Bool} {rest : List Char},
      matchRanges r chunk n acc = some (m, rest) → rest.length < chunk.length := by
  intro fuel
  induction fuel with
  | zero =>
    intro chunk hle n acc m rest h
    have : chunk = [] := List.length_eq_zero.mp (Nat.le_zero.mp hle)
    subst this
    rw [matchRanges.eq_def] at h
    simp at h
  | succ k ih =>
    intro chunk hle n acc m rest h
    rw [matchRanges.eq_def] at h
    split at h
    · simp only [Option.some.injEq, Prod.mk.injEq] at h
      obtain ⟨-, h2⟩ := h
      subst h2
      simp
    · simp at h
    · rename_i c cs nrange acc' hno
      split at h
      · simp at h
      · split at h
        · split at h
          · rename_i lo c1 rest1
            split at h
            · split at h
              · simp at h
              · rename_i d ds
                split at h
                · simp at h
                · split at h
                  · split at h
                    · rename_i hi e es
                      have := ih (e :: es) (by simp at hle ⊢; omega) h
                      simp at this ⊢
                      omega
                    · simp at h
                  · split at h
                    · rename_i x xs
                      have := ih (x :: xs) (by simp at hle ⊢; omega) h
                      simp at this ⊢
                      omega
                    · simp at h
            · have := ih (c1 :: rest1) (by simp at hle ⊢; omega) h
              simp at this ⊢
              omega
          · simp at h
        · split at h
          · rename_i c1 rest1
            split at h
            · split at h
              · simp at h
              · rename_i d ds
                split at h
                · simp at h
                · split at h
                  · split at h
                    · rename_i hi e es
                      have := ih (e :: es) (by simp at hle ⊢; omega) h
                      simp at this ⊢
                      omega
                    · simp at h
                  · split at h
                    · rename_i x xs
                      have := ih (x :: xs) (by simp at hle ⊢; omega) h
                      simp at this ⊢
                      omega
                    · simp at h
            · have := ih (c1 :: rest1) (by simp at hle ⊢; omega) h
              simp at this ⊢
              omega
          · simp at h

theorem stripStars_rest_length (l : List Char) :
    (stripStars l).2.length ≤ l.length := by
  induction l with
  | nil => simp [stripStars]
  | cons c cs ih =>
    rw [stripStars.eq_def]
    split
    · rename_i cs' heq
      injection heq with h1 h2
      subst h2
      simpa using Nat.le_succ_of_le ih
    · simp

theorem stripStars_true_length (l : List Char) (h : (stripStars l).1 = true) :
    (stripStars l).2.length < l.length := by
  rw [stripStars.eq_def] at h ⊢
  split at h
  · rename_i cs
    have := stripStars_rest_length cs
    simpa using Nat.lt_succ_of_le this
  · simp at h

theorem stripStars_false (l : List Char) (h : (stripStars l).1 = false) :
    (stripStars l).2 = l ∧ ∀ c cs, l = c :: cs → c ≠ '*' := by
  rw [stripStars.eq_def] at h ⊢
  split at h
  · simp at h
  · rename_i hne
    refine ⟨rfl, ?_⟩
    intro c cs hl hc
    exact hne cs (by rw [hl, hc])

theorem scanBody_rest_le :
    ∀ fuel (l : List Char) (b : Bool), l.length ≤ fuel →
      (scanBody l b).2.length ≤ l.length := by
  intro fuel
  induction fuel with
  | zero =>
    intro l b hle
    have : l = [] := List.length_eq_zero.mp (Nat.le_zero.mp hle)
    subst this
    simp [scanBody]
  | succ k ih =>
    intro l b hle
    match l with
    | [] => simp [scanBody]
    | c :: cs =>
      by_cases h1 : c = '\\'
      · subst h1
        match cs with
        | [] => simp [scanBody]
        | d :: ds =>
          have := ih ds b (by simp at hle ⊢; omega)
          simp only [scanBody]
          simp at this ⊢
          omega
      · by_cases h2 : c = '['
        · subst h2
          have := ih cs true (by simp at hle ⊢; omega)
          simp only [scanBody]
          simp at this ⊢
          omega
        · by_cases h3 : c = ']'
          · subst h3
            have := ih cs false (by simp at hle ⊢; omega)
            simp only [scanBody]
            simp at this ⊢
            omega
          · by_cases h4 : c = '*'
            · subst h4
              cases b with
              | true =>
                have := ih cs true (by simp at hle ⊢; omega)
                simp only [scanBody]
                simp at this ⊢
                omega
              | false => simp [scanBody]
            · have := ih cs b (by simp at hle ⊢; omega)
              simp only [scanBody, h1, h2, h3, h4]
              simp at this ⊢
              omega

theorem scanBody_rest_lt (c : Char) (cs : List Char) (b : Bool)
    (hside : c ≠ '*' ∨ b = true) :
    (scanBody (c :: cs) b).2.length < (c :: cs).length := by
  by_cases h1 : c = '\\'
  · subst h1
    match cs with
    | [] => simp [scanBody]
    | d :: ds =>
      have := scanBody_rest_le ds.length ds b (Nat.le_refl _)
      simp only [scanBody]
      simp at this ⊢
      omega
  · by_cases h2 : c = '['
    · subst h2
      have := scanBody_rest_le cs.length cs true (Nat.le_refl _)
      simp only [scanBody]
      simp at this ⊢
      omega
    · by_cases h3 : c = ']'
      · subst h3
        have := scanBody_rest_le cs.length cs false (Nat.le_refl _)
        simp only [scanBody]
        simp at this ⊢
        omega
      · by_cases h4 : c = '*'
        · subst h4
          cases b with
          | true =>
            have := scanBody_rest_le cs.length cs true (Nat.le_refl _)
            simp only [scanBody]
            simp at this ⊢
            omega
          | false =>
            rcases hside with hc | hb
            · exact absurd rfl hc
            · exact absurd hb (by simp)
        · have := scanBody_rest_le cs.length cs b (Nat.le_refl _)
          simp only [scanBody, h1, h2, h3, h4]
          simp at this ⊢
          omega

theorem scanChunk_rest_lt (p : List Char) (hp : p ≠ []) :
    (scanChunk p).2.2.length < p.length := by
  have hsc : (scanChunk p).2.2 = (scanBody (stripStars p).2 false).2 := by
    simp [scanChunk]
  rw [hsc]
  cases hstar : (stripStars p).1 with
  | true =>
    have h1 := stripStars_true_length p hstar
    have h2 := scanBody_rest_le (stripStars p).2.length (stripStars p).2 false
      (Nat.le_refl _)
    omega
  | false =>
    obtain ⟨heq, hhead⟩ := stripStars_false p hstar
    rw [heq]
    match p, hp with
    | c :: cs, _ =>
      exact scanBody_rest_lt c cs false (Or.inl (hhead c cs rfl))

/-- The `if !failed { r := decode(s); s = s[n:] }` step at the head of
`matchChunk`'s `[` case: returns the rune, the remaining name and the
updated `failed` flag (set when the name is already exhausted). -/
def runeStep (s : List Char) (failed : Bool) : Char × List Char × Bool :=
  match s, failed with
  | sh :: st, false => (sh, st, false)
  | _, _ => (Char.ofNat 0, s, true)

/-- The negation test of `matchChunk`'s `[` case: consume a leading `^`. -/
def classNeg : List Char → Bool × List Char
  | '^' :: t => (true, t)
  | t => (false, t)

theorem classNeg_rest_length (l : List Char) : (classNeg l).2.length ≤ l.length := by
  rw [classNeg.eq_def]
  split
  · simp
  · simp

/-- `filepath.matchChunk`: `none` is `ErrBadPattern`, `some none` is
"no match" (with the pattern remainder syntactically valid so far), and
`some (some t)` is a match leaving `t` of the name.  The `failed` flag
is threaded exactly as in Go: scanning continues after a mismatch so
that pattern syntax errors are still detected. -/
def matchChunkGo : List Char → List Char → Bool → Option (Option (List Char))
  | [], s, failed => if failed then some none else some (some s)
  | '[' :: chunk1, s, failed0 =>
    let rs := runeStep s failed0
    let nc := classNeg chunk1
    match h : matchRanges rs.1 nc.2 0 false with
    | none => none
    | some (mtch, chunk3) =>
      matchChunkGo chunk3 rs.2.1 (rs.2.2 || (mtch == nc.1))
  | '?' :: chunk1, s, failed0 =>
    match s, failed0 with
    | sh :: st, false => matchChunkGo chunk1 st (sh == '/')
    | _, _ => matchChunkGo chunk1 s true
  | '\\' :: chunk1, s, failed0 =>
    match chunk1 with
    | [] => none
    | d :: chunk2 =>
      match s, failed0 with
      | sh :: st, false => matchChunkGo chunk2 st (!(d == sh))
      | _, _ => matchChunkGo chunk2 s true
  | c :: chunk1, s, failed0 =>
    match s, failed0 with
    | sh :: st, false => matchChunkGo chunk1 st (!(c == sh))
    | _, _ => matchChunkGo chunk1 s true
  termination_by chunk _ _ => chunk.length
  decreasing_by
  all_goals first
    | (simp +arith [List.length]
       done)
    | (have hlt := matchRanges_length (classNeg chunk1).2.length (classNeg chunk1).2
          (Nat.le_refl _) h
       have hle := classNeg_rest_length chunk1
       simp at hlt ⊢
       omega)

/-- The inner loop of `Match`'s `*` handling: try `matchChunk` against
every suffix of the name obtained by skipping one more character, not
crossing a separator.  `restEmpty` records whether the pattern after the
current chunk is empty (Go: `len(pattern) == 0`). -/
def starTries (chunk : List Char) (restEmpty : Bool) : List Char → Option (Option (List Char))
  | [] => some none
  | c :: nameRest =>
    if c == '/' then some none
    else
      match matchChunkGo chunk nameRest false with
      | none => none
      | some (some t) =>
        if restEmpty && !t.isEmpty then starTries chunk restEmpty nameRest
        else some (some t)
      | some none => starTries chunk restEmpty nameRest

/-- The trailing loop of `Match`: before returning `false`, check the
rest of the pattern for syntax errors by matching each chunk against the
empty string. -/
def checkRestValid : List Char → Option Bool
  | [] => some false
  | c :: ps =>
    let sc := scanChunk (c :: ps)
    match matchChunkGo sc.2.1 [] false with
    | none => none
    | some _ => checkRestValid sc.2.2
  termination_by p => p.length
  decreasing_by
    refine scanChunk_rest_lt _ ?_
    simp

/-- `filepath.Match` over character lists: `some b` is `(b, nil)`,
`none` is `ErrBadPattern`. -/
def goMatchAux : List Char → List Char → Option Bool
  | [], name => some name.isEmpty
  | c :: ps, name =>
    let sc := scanChunk (c :: ps)
    let star := sc.1
    let chunk := sc.2.1
    let rest := sc.2.2
    if star && chunk.isEmpty then some (!(name.contains '/'))
    else
      match matchChunkGo chunk name false with
      | none => none
      | some (some t) =>
        if t.isEmpty || !rest.isEmpty then goMatchAux rest t
        else if star then
          match starTries chunk rest.isEmpty name with
          | none => none
          | some (some u) => goMatchAux rest u
          | some none => checkRestValid rest
        else checkRestValid rest
      | some none =>
        if star then
          match starTries chunk rest.isEmpty name with
          | none => none
          | some (some u) => goMatchAux rest u
          | some none => checkRestValid rest
        else checkRestValid rest
  termination_by p _ => p.length
  decreasing_by
  all_goals
    refine scanChunk_rest_lt _ ?_
    simp

/-- `filepath.Match` on strings. -/
def goMatch (pattern name : String) : Option Bool :=
  goMatchAux pattern.toList name.toList

/-- `filepath.Base` (Unix): strip trailing separators, then take the part
after the last separator; `""` gives `"."` and an all-separator path
gives `"/"`. -/
def basePath (path : String) : String :=
  if path = "" then "."
  else
    let l1 := (path.toList.reverse.dropWhile (· == '/')).reverse
    let l2 := (l1.reverse.takeWhile (· != '/')).reverse
    if l2.isEmpty then "/" else String.mk l2

/-- `planner.shouldIgnore` (core/planner/planner.go): a path is ignored
when some pattern matches its base name or the full path; `Match` errors
are treated as non-matches. -/
def shouldIgnore (path : String) (patterns : List String) : Bool :=
  patterns.any fun pattern =>
    goMatch pattern (basePath path) == some true || goMatch pattern path == some true

/-! ## Action ordering (`planner.sortActions`, `planner.actionTypeOrder`) -/

/-- `planner.actionTypeOrder`: sort priority of the five action types
(the Go `default: 99` branch is unreachable for the defined constants). -/
def actionTypeOrder : ActionType → Nat
  | ActionType.mkdir => 1
  | ActionType.copy => 2
  | ActionType.delete => 3
  | ActionType.conflict => 4
  | ActionType.skip => 5

/-- Separator count used by `sortActions` for depth:
`strings.Count(path, "/") + strings.Count(path, "\\")`. -/
def sepCount (p : String) : Nat :=
  p.toList.count '/' + p.toList.count '\\'

/-- The `less` closure passed to `sort.Slice` in `planner.sortActions`.
Go's `<` on strings is byte-lexicographic; it is modelled as the
lexicographic order on the character lists, which is exactly how the
`String` order is defined (`String.lt_iff_toList_lt`) and which the
kernel can evaluate. -/
def actionLtb (a b : SyncAction) : Bool :=
  let oi := actionTypeOrder a.type
  let oj := actionTypeOrder b.type
  if oi ≠ oj then decide (oi < oj)
  else
    let di := sepCount a.path
    let dj := sepCount b.path
    if di ≠ dj then
      if a.type = ActionType.delete then decide (dj < di) else decide (di < dj)
    else decide (a.path.toList < b.path.toList)

/-- The non-strict order guaranteed by `sort.Slice`: in the sorted slice
`¬ less(a[j], a[i])` holds for `i ≤ j`. -/
def goLE (a b : SyncAction) : Prop := actionLtb b a = false

instance : DecidableRel goLE := fun _ _ => instDecidableEqBool _ _

/-- `planner.sortActions`.  `sort.Slice` is an unstable comparison sort;
its observable contract is a permutation of the input that is pairwise
ordered by `goLE`, which insertion sort realises. -/
def sortActions (actions : List SyncAction) : List SyncAction :=
  List.insertionSort goLE actions

/-- The signed depth component of the comparator: deletes sort deep
first, every other type shallow first. -/
def depthKey (a : SyncAction) : Int :=
  if a.type = ActionType.delete then -(sepCount a.path : Int)
  else (sepCount a.path : Int)

/-- The total sort key `(type_rank, depth_key, path)` realised by
`sortActions`. -/
def sortKey (a : SyncAction) : Nat ×ₗ (Int ×ₗ List Char) :=
  toLex (actionTypeOrder a.type, toLex (depthKey a, a.path.toList))

/-- The depth key the claim attributes to the planner: conflicts and
skips ordered by path alone. -/
def claimDepthKey (a : SyncAction) : Int :=
  match a.type with
  | ActionType.mkdir => (sepCount a.path : Int)
  | ActionType.copy => (sepCount a.path : Int)
  | ActionType.delete => -(sepCount a.path : Int)
  | ActionType.conflict => 0
  | ActionType.skip => 0

/-- The sort key `(type_rank, depth_key, path)` as the claim states it. -/
def claimKey (a : SyncAction) : Nat ×ₗ (Int ×ₗ List Char) :=
  toLex (actionTypeOrder a.type, toLex (claimDepthKey a, a.path.toList))

/-! ## Planner (`planner.DefaultPlanner`) -/

/-- Go map lookup `m[path]` over the association-list model. -/
def lookupFI : List (String × FileInfo) → String → Option FileInfo
  | [], _ => none
  | e :: rest, path => if e.1 == path then some e.2 else lookupFI rest path

/-- The first loop of `PlanOneWay` ("files to copy"): one action per
`fromMap` entry. -/
def planCopyStep (toMap : List (String × FileInfo)) (rule : SyncRule)
    (direction : SyncDirection) (e : String × FileInfo) : Option SyncAction :=
  let path := e.1
  let fromInfo := e.2
  if shouldIgnore path rule.ignorePatterns then none
  else
    match lookupFI toMap path with
    | none =>
      if fromInfo.IsDir then
        some { type := ActionType.mkdir, direction := direction, path := path,
               sourceInfo := some fromInfo, targetInfo := none,
               reason := "directory does not exist" }
      else
        some { type := ActionType.copy, direction := direction, path := path,
               sourceInfo := some fromInfo, targetInfo := none,
               reason := "file does not exist" }
    | some toInfo =>
      if fromInfo.type ≠ toInfo.type then
        some { type := ActionType.conflict, direction := direction, path := path,
               sourceInfo := some fromInfo, targetInfo := some toInfo,
               reason := "type mismatch: file vs directory" }
      else if fromInfo.IsFile && toInfo.IsFile then
        if Compare (some fromInfo) (some toInfo) = DiffResult.fileModified then
          some { type := ActionType.copy, direction := direction, path := path,
                 sourceInfo := some fromInfo, targetInfo := some toInfo,
                 reason := "file modified" }
        else none
      else none

/-- The second loop of `PlanOneWay` ("files to delete"). -/
def planDeleteStep (fromMap : List (String × FileInfo)) (rule : SyncRule)
    (direction : SyncDirection) (e : String × FileInfo) : Option SyncAction :=
  if shouldIgnore e.1 rule.ignorePatterns then none
  else
    match lookupFI fromMap e.1 with
    | some _ => none
    | none =>
      some { type := ActionType.delete, direction := direction, path := e.1,
             sourceInfo := none, targetInfo := some e.2,
             reason := "file does not exist on source" }

/-- `domain.SyncPlanStats`. -/
structure SyncPlanStats where
  totalFiles : Nat
  filesToCopy : Nat
  filesToDelete : Nat
  dirsToCreate : Nat
  conflicts : Nat
  bytesToSync : Int
deriving DecidableEq, Repr

/-- `domain.SyncPlan`. -/
structure SyncPlan where
  ruleName : String
  actions : List SyncAction
  conflicts : List SyncAction
  stats : SyncPlanStats
deriving DecidableEq, Repr

/-- One iteration of `planner.calculateStats`. -/
def statsStep (acc : SyncPlanStats × List SyncAction) (action : SyncAction) :
    SyncPlanStats × List SyncAction :=
  let st := acc.1
  let st := { st with totalFiles := st.totalFiles + 1 }
  match action.type with
  | ActionType.copy =>
    let bytes :=
      match action.sourceInfo with
      | some si => si.size
      | none =>
        match action.targetInfo with
        | some ti => ti.size
        | none => 0
    ({ st with filesToCopy := st.filesToCopy + 1,
               bytesToSync := st.bytesToSync + bytes }, acc.2)
  | ActionType.delete => ({ st with filesToDelete := st.filesToDelete + 1 }, acc.2)
  | ActionType.mkdir => ({ st with dirsToCreate := st.dirsToCreate + 1 }, acc.2)
  | ActionType.conflict =>
    ({ st with conflicts := st.conflicts + 1 }, acc.2 ++ [action])
  | ActionType.skip => (st, acc.2)

/-- `planner.calculateStats` over an action list: the stats record and
the mirrored conflict list. -/
def calculateStats (actions : List SyncAction) : SyncPlanStats × List SyncAction :=
  actions.foldl statsStep ({ totalFiles := 0, filesToCopy := 0, filesToDelete := 0,
                             dirsToCreate := 0, conflicts := 0, bytesToSync := 0 }, [])

/-- `planner.DefaultPlanner.PlanOneWay`.  Go iterates the two maps in
unspecified order and then sorts; the model iterates the association
lists, which yields the same multiset of actions and hence the same
sorted plan. -/
def PlanOneWay (fromMap toMap : List (String × FileInfo)) (rule : SyncRule)
    (direction : SyncDirection) : SyncPlan :=
  let actions := sortActions
    (fromMap.filterMap (planCopyStep toMap rule direction) ++
      toMap.filterMap (planDeleteStep fromMap rule direction))
  let st := calculateStats actions
  { ruleName := rule.name, actions := actions, conflicts := st.2, stats := st.1 }

/-- The per-path body of `PlanTwoWay`'s union loop. -/
def planTwoWayStep (sourceMap targetMap : List (String × FileInfo))
    (rule : SyncRule) (path : String) : Option SyncAction :=
  if shouldIgnore path rule.ignorePatterns then none
  else
    match lookupFI sourceMap path, lookupFI targetMap path with
    | some srcInfo, none =>
      if srcInfo.IsDir then
        some { type := ActionType.mkdir, direction := SyncDirection.sourceToTarget,
               path := path, sourceInfo := some srcInfo, targetInfo := none,
               reason := "directory only exists on source" }
      else
        some { type := ActionType.copy, direction := SyncDirection.sourceToTarget,
               path := path, sourceInfo := some srcInfo, targetInfo := none,
               reason := "file only exists on source" }
    | none, some tgtInfo =>
      if tgtInfo.IsDir then
        some { type := ActionType.mkdir, direction := SyncDirection.targetToSource,
               path := path, sourceInfo := none, targetInfo := some tgtInfo,
               reason := "directory only exists on target" }
      else
        some { type := ActionType.copy, direction := SyncDirection.targetToSource,
               path := path, sourceInfo := none, targetInfo := some tgtInfo,
               reason := "file only exists on target" }
    | some srcInfo, some tgtInfo =>
      if srcInfo.type ≠ tgtInfo.type then
        some { type := ActionType.conflict, direction := SyncDirection.sourceToTarget,
               path := path, sourceInfo := some srcInfo, targetInfo := some tgtInfo,
               reason := "type mismatch: file vs directory" }
      else if srcInfo.IsFile && tgtInfo.IsFile then
        if Compare (some srcInfo) (some tgtInfo) = DiffResult.fileModified then
          some (Resolve rule.conflictStrategy path (some srcInfo) (some tgtInfo))
        else none
      else none
    | none, none => none

/-- `planner.DefaultPlanner.PlanTwoWay`: the union of the two key sets
(`allPaths`, a Go set) is modelled as the deduplicated concatenation of
the key lists. -/
def PlanTwoWay (sourceMap targetMap : List (String × FileInfo))
    (rule : SyncRule) : SyncPlan :=
  let allPaths := (sourceMap.map Prod.fst ++ targetMap.map Prod.fst).dedup
  let actions := sortActions (allPaths.filterMap (planTwoWayStep sourceMap targetMap rule))
  let st := calculateStats actions
  { ruleName := rule.name, actions := actions, conflicts := st.2, stats := st.1 }

theorem actionTypeOrder_inj (t1 t2 : ActionType)
    (h : actionTypeOrder t1 = actionTypeOrder t2) : t1 = t2 := by
  cases t1 <;> cases t2 <;> simp_all [actionTypeOrder]

theorem actionLtb_iff (a b : SyncAction) :
    actionLtb a b = true ↔ sortKey a < sortKey b := by
  have hlex : sortKey a < sortKey b ↔
      (actionTypeOrder a.type < actionTypeOrder b.type ∨
        (actionTypeOrder a.type = actionTypeOrder b.type ∧
          (depthKey a < depthKey b ∨
            (depthKey a = depthKey b ∧ a.path.toList < b.path.toList)))) := by
    unfold sortKey
    rw [Prod.Lex.lt_iff]
    simp only [Prod.Lex.lt_iff]
  rw [hlex]
  by_cases ho : actionTypeOrder a.type = actionTypeOrder b.type
  · have hty : a.type = b.type := actionTypeOrder_inj _ _ ho
    by_cases hdel : a.type = ActionType.delete
    · have hdb : b.type = ActionType.delete := by rw [← hty]; exact hdel
      have ho' : actionTypeOrder ActionType.delete = actionTypeOrder b.type := by
        rw [← hdel]; exact ho
      have hdk1 : depthKey a = -(sepCount a.path : Int) := by simp [depthKey, hdel]
      have hdk2 : depthKey b = -(sepCount b.path : Int) := by simp [depthKey, hdb]
      by_cases hd : sepCount a.path = sepCount b.path
      · have hL : actionLtb a b = decide (a.path.toList < b.path.toList) := by
          simp [actionLtb, ho', hd, hdel]
        rw [hL, decide_eq_true_eq, hdk1, hdk2]
        constructor
        · intro h
          exact Or.inr ⟨ho, Or.inr ⟨by omega, h⟩⟩
        · rintro (h | ⟨-, h | ⟨-, h⟩⟩)
          · exact absurd h (by omega)
          · exact absurd h (by omega)
          · exact h
      · have hL : actionLtb a b = decide (sepCount b.path < sepCount a.path) := by
          simp [actionLtb, ho', hd, hdel]
        rw [hL, decide_eq_true_eq, hdk1, hdk2]
        constructor
        · intro h
          exact Or.inr ⟨ho, Or.inl (by omega)⟩
        · rintro (h | ⟨-, h | ⟨h, -⟩⟩)
          · exact absurd h (by omega)
          · omega
          · exact absurd h (by omega)
    · have hdb : ¬ b.type = ActionType.delete := by rw [← hty]; exact hdel
      have hdk1 : depthKey a = (sepCount a.path : Int) := by simp [depthKey, hdel]
      have hdk2 : depthKey b = (sepCount b.path : Int) := by simp [depthKey, hdb]
      by_cases hd : sepCount a.path = sepCount b.path
      · have hL : actionLtb a b = decide (a.path.toList < b.path.toList) := by
          simp [actionLtb, ho, hd, hdel]
        rw [hL, decide_eq_true_eq, hdk1, hdk2]
        constructor
        · intro h
          exact Or.inr ⟨ho, Or.inr ⟨by omega, h⟩⟩
        · rintro (h | ⟨-, h | ⟨-, h⟩⟩)
          · exact absurd h (by omega)
          · exact absurd h (by omega)
          · exact h
      · have hL : actionLtb a b = decide (sepCount a.path < sepCount b.path) := by
          simp [actionLtb, ho, hd, hdel]
        rw [hL, decide_eq_true_eq, hdk1, hdk2]
        constructor
        · intro h
          exact Or.inr ⟨ho, Or.inl (by omega)⟩
        · rintro (h | ⟨-, h | ⟨h, -⟩⟩)
          · exact absurd h (by omega)
          · omega
          · exact absurd h (by omega)
  · have hL : actionLtb a b = decide (actionTypeOrder a.type < actionTypeOrder b.type) := by
      simp [actionLtb, ho]
    rw [hL, decide_eq_true_eq]
    constructor
    · exact Or.inl
    · rintro (h | ⟨h, -⟩)
      · exact h
      · exact absurd h ho

theorem goLE_iff (a b : SyncAction) : goLE a b ↔ sortKey a ≤ sortKey b := by
  unfold goLE
  rw [← not_lt, ← actionLtb_iff b a]
  constructor
  · intro h hc
    rw [h] at hc
    exact Bool.false_ne_true hc
  · intro h
    cases hb : actionLtb b a with
    | false => rfl
    | true => exact absurd hb h

instance : IsTotal SyncAction goLE :=
  ⟨fun a b => by
    rw [goLE_iff, goLE_iff]
    exact le_total _ _⟩

instance : IsTrans SyncAction goLE :=
  ⟨fun a b c hab hbc => by
    rw [goLE_iff] at hab hbc ⊢
    exact le_trans hab hbc⟩

theorem sortActions_sorted (l : List SyncAction) :
    (sortActions l).Pairwise goLE :=
  List.sorted_insertionSort goLE l

theorem sortActions_perm (l : List SyncAction) : List.Perm (sortActions l) l :=
  List.perm_insertionSort goLE l

theorem mem_sortActions {l : List SyncAction} {a : SyncAction} :
    a ∈ sortActions l ↔ a ∈ l :=
  (sortActions_perm l).mem_iff

theorem sortActions_pairwise_key (l : List SyncAction) :
    (sortActions l).Pairwise (fun a b => sortKey a ≤ sortKey b) :=
  (sortActions_sorted l).imp fun h => (goLE_iff _ _).mp h


/-! ## Concrete descriptors used by counterexamples and witnesses -/

/-- A regular file descriptor with the given path, size and mtime. -/
def mkFile (p : String) (sz mt : Int) : FileInfo :=
  { path := p, type := FileType.regular, size := sz, modTime := mt,
    checksum := "", etag := "", isDeleted := false }

/-- A directory descriptor with the given path. -/
def mkDir (p : String) : FileInfo :=
  { path := p, type := FileType.directory, size := 0, modTime := 0,
    checksum := "", etag := "", isDeleted := false }

/-- A rule with no ignore patterns and the keep-newest strategy. -/
def plainRule : SyncRule :=
  { name := "r", ignorePatterns := [], conflictStrategy := ConflictStrategy.keepNewest }

/-- `a` is a parent directory of `b`: `b = a ++ "/" ++ rest`. -/
def isParentOf (a b : String) : Prop :=
  ∃ t : List Char, b.toList = a.toList ++ '/' :: t

theorem isParentOf_sepCount {a b : String} (h : isParentOf a b) :
    sepCount a < sepCount b := by
  obtain ⟨t, ht⟩ := h
  unfold sepCount
  rw [ht]
  simp [List.count_append, List.count_cons]
  omega

theorem isParentOf_irrefl (p : String) : ¬ isParentOf p p := by
  rintro ⟨t, ht⟩
  have hl := congrArg List.length ht
  simp [List.length_append] at hl

theorem sortKey_le_rank {x y : SyncAction} (h : sortKey x ≤ sortKey y) :
    actionTypeOrder x.type ≤ actionTypeOrder y.type := by
  unfold sortKey at h
  rw [Prod.Lex.le_iff] at h
  rcases h with h | ⟨h, -⟩
  · exact le_of_lt h
  · exact le_of_eq h

theorem sortKey_le_delete {x y : SyncAction}
    (hx : x.type = ActionType.delete) (hy : y.type = ActionType.delete)
    (h : sortKey x ≤ sortKey y) : sepCount y.path ≤ sepCount x.path := by
  unfold sortKey at h
  rw [Prod.Lex.le_iff] at h
  have hdx : depthKey x = -(sepCount x.path : Int) := by simp [depthKey, hx]
  have hdy : depthKey y = -(sepCount y.path : Int) := by simp [depthKey, hy]
  rcases h with h | ⟨-, h⟩
  · rw [hx, hy] at h
    exact absurd h (lt_irrefl _)
  · rw [Prod.Lex.le_iff] at h
    rcases h with h | ⟨h, -⟩
    · simp only at h
      rw [hdx, hdy] at h
      omega
    · simp only at h
      rw [hdx, hdy] at h
      omega

theorem sorted_key_of_plan (l : List SyncAction) (i j : Fin (sortActions l).length)
    (hij : (i : Nat) < j) :
    sortKey ((sortActions l).get i) ≤ sortKey ((sortActions l).get j) := by
  have hp := sortActions_pairwise_key l
  rw [List.pairwise_iff_get] at hp
  exact hp i j hij

/-! ## Execution (`service.SyncService.executeAction` / `ExecuteSync`,
with the endpoint state as seen through the `local` adapter)

Each endpoint is modelled by its path → descriptor view.  `Write`
transfers the read descriptor (content copy preserves size and
checksum; the model also carries the mtime, matching a
metadata-preserving copy); `Mkdir` (`os.MkdirAll`) creates a plain
directory entry; `Delete` (`os.Remove` + `mapError`) fails with
`ErrNotFound` on an absent path. -/

/-- The `domain` error values the adapters surface (domain/errors.go). -/
inductive DomainErr where
  | notFound
  | notFile
  | notDirectory
  | permissionDenied
  | alreadyExists
deriving DecidableEq, Repr

/-- One endpoint's tree: association list of path → descriptor. -/
abbrev FsTree := List (String × FileInfo)

/-- Remove every entry for `p`. -/
def removeKey (t : FsTree) (p : String) : FsTree :=
  t.filter fun e => !(e.1 == p)

/-- Create or replace the entry for `p`. -/
def upsert (t : FsTree) (p : String) (f : FileInfo) : FsTree :=
  (p, f) :: removeKey t p

/-- `local.Adapter.Delete`: removing an absent path yields
`domain.ErrNotFound`. -/
def adapterDelete (t : FsTree) (p : String) : Except DomainErr FsTree :=
  match lookupFI t p with
  | none => Except.error DomainErr.notFound
  | some _ => Except.ok (removeKey t p)

/-- `local.Adapter.Read`, returning the descriptor of the entry whose
content is streamed: `ErrNotFound` when absent, `ErrNotFile` for a
directory.  `os.Stat`/`os.Open` follow symlinks, so a listed symlink
entry reads successfully whenever the link resolves; the model covers
that resolving case (a dangling link would fail `os.Stat` with
`ErrNotFound` and abort the run like any other read error). -/
def adapterRead (t : FsTree) (p : String) : Except DomainErr FileInfo :=
  match lookupFI t p with
  | none => Except.error DomainErr.notFound
  | some f => if f.IsDir then Except.error DomainErr.notFile else Except.ok f

/-- The destination entry produced by a successful copy, as the
destination adapter re-lists it.  `local.Adapter.Write` streams the read
bytes into a freshly created file (`os.Create` + `io.Copy` + atomic
rename, no `Chtimes`), so the re-listed descriptor has type regular -
whatever the source entry's type was - the streamed byte count, the
write-time mtime `now`, and (`local.Adapter.List`) the SHA-256 of the
streamed content under the same 100 MiB size threshold on both sides.
For a regular source file the streamed bytes are the source content, so
the size and checksum fields coincide with the source descriptor's; for
a symlink source the stream is the linked content, whose size and hash
the descriptor does not determine - the model reuses the descriptor's
fields there, and no theorem below relies on a written file's size or
checksum unless the source entry is regular, only on its type being
regular. -/
def writtenFile (p : String) (f : FileInfo) (now : Int) : FileInfo :=
  { path := p, type := FileType.regular, size := f.size, modTime := now,
    checksum := f.checksum, etag := "", isDeleted := false }

/-- `service.SyncService.executeAction` (service/sync.go lines 259-317):
resolve `from`/`to` adapters from the action's direction, then dispatch:
copy streams `Read(from)` into `Write(to)` - the destination then holds
the freshly written regular file `writtenFile`, stamped with the write
time `now` - mkdir and delete go to the `to` side, skip and conflict do
nothing.  Mkdir installs a plain directory entry; of a directory entry
the planner only ever compares the type, so the model's constant size
and mtime are immaterial. -/
def executeAction (action : SyncAction) (now : Int) (src tgt : FsTree) :
    Except DomainErr (FsTree × FsTree) :=
  match action.type with
  | ActionType.copy =>
    match action.direction with
    | SyncDirection.sourceToTarget =>
      match adapterRead src action.path with
      | Except.error e => Except.error e
      | Except.ok f =>
        Except.ok (src, upsert tgt action.path (writtenFile action.path f now))
    | SyncDirection.targetToSource =>
      match adapterRead tgt action.path with
      | Except.error e => Except.error e
      | Except.ok f =>
        Except.ok (upsert src action.path (writtenFile action.path f now), tgt)
  | ActionType.mkdir =>
    match action.direction with
    | SyncDirection.sourceToTarget =>
      Except.ok (src, upsert tgt action.path (mkDir action.path))
    | SyncDirection.targetToSource =>
      Except.ok (upsert src action.path (mkDir action.path), tgt)
  | ActionType.delete =>
    match action.direction with
    | SyncDirection.sourceToTarget =>
      match adapterDelete tgt action.path with
      | Except.error e => Except.error e
      | Except.ok t2 => Except.ok (src, t2)
    | SyncDirection.targetToSource =>
      match adapterDelete src action.path with
      | Except.error e => Except.error e
      | Except.ok s2 => Except.ok (s2, tgt)
  | ActionType.skip => Except.ok (src, tgt)
  | ActionType.conflict => Except.ok (src, tgt)

/-- The action loop of `service.SyncService.ExecuteSync`: execute in
order, abort at the first error (fail-fast).  Successive writes carry
successive timestamps `now`, `now + 1`, ...; the unit step is an
arbitrary choice, every theorem below holds for any strictly fresh
write times. -/
def runActions : List SyncAction → Int → FsTree × FsTree →
    Except DomainErr (FsTree × FsTree)
  | [], _, st => Except.ok st
  | a :: rest, now, st =>
    match executeAction a now st.1 st.2 with
    | Except.error e => Except.error e
    | Except.ok st2 => runActions rest (now + 1) st2

/-! ## File lock (`lock.FileLock`, Unix build) -/

/-- `lock.LockInfo`: the persisted holder record; `startTime` is an
`Int` instant. -/
structure LockInfo where
  pid : Int
  hostname : String
  startTime : Int
  ruleName : String
deriving DecidableEq, Repr

/-- Outcome of `process.Signal(syscall.Signal(0))` for a pid.  On Unix
`os.FindProcess` always succeeds, so the probe is fully described by
the signal result. -/
inductive SignalResult where
  | delivered
  | eperm
  | esrch
  | otherErr
deriving DecidableEq, Repr

/-- The ambient host observed by the lock code: local hostname, current
pid, current instant, and the signal-0 probe. -/
structure LockEnv where
  hostname : String
  pid : Int
  now : Int
  signal : Int → SignalResult

/-- `lock.processExists` (process_unix.go): no error means alive, and
`EPERM` still means the process exists. -/
def processExists (env : LockEnv) (pid : Int) : Bool :=
  match env.signal pid with
  | SignalResult.delivered => true
  | SignalResult.eperm => true
  | SignalResult.esrch => false
  | SignalResult.otherErr => false

/-- `lock.DefaultStaleTimeout` (30 minutes, in nanoseconds). -/
def DefaultStaleTimeout : Int := 30 * 60 * 1000000000

/-- `lock.FileLock.isStale`: same host — stale iff the process is dead;
different host — stale iff the lock is older than the stale timeout
(`time.Since(info.StartTime) > staleTimeout`). -/
def isStale (env : LockEnv) (staleTimeout : Int) (info : LockInfo) : Bool :=
  if info.hostname == env.hostname then
    if !(processExists env info.pid) then true
    else false
  else
    if env.now - info.startTime > staleTimeout then true
    else false

/-- `lock.FileLock.isHeldByCurrentProcess`. -/
def isHeldByCurrentProcess (env : LockEnv) (info : LockInfo) : Bool :=
  info.pid == env.pid && info.hostname == env.hostname

/-- `lock.FileLock.isHeldByThisInstance`: the in-memory holder must
exist and the on-disk record must name the current process with the
held start time and rule name. -/
def isHeldByThisInstance (env : LockEnv) (inst : Option LockInfo)
    (info : LockInfo) : Bool :=
  match inst with
  | none => false
  | some mine =>
    isHeldByCurrentProcess env info &&
      (mine.startTime == info.startTime) && (mine.ruleName == info.ruleName)

/-- The on-disk lock file: absent, unreadable/corrupt, or a parsed
`LockInfo`. -/
inductive LockFileState where
  | absent
  | unreadable
  | written (info : LockInfo)
deriving DecidableEq, Repr

/-- `readLockInfo` over the modelled file state. -/
def readLockInfo : LockFileState → Option LockInfo
  | LockFileState.absent => none
  | LockFileState.unreadable => none
  | LockFileState.written info => some info

/-- Result of `FileLock.Release`. -/
inductive ReleaseResult where
  | ok
  | stolen
deriving DecidableEq, Repr

/-- `lock.FileLock.Release` (process_unix.go lines 167-190): nothing
held → success; unreadable or missing file → clear the holder and
succeed; mismatching on-disk record → clear the holder and report
`stolen` without touching the file; otherwise remove the file.  The
`os.Remove` I/O failure path is environmental and outside the model. -/
def releaseLock (env : LockEnv) (inst : Option LockInfo)
    (file : LockFileState) : Option LockInfo × LockFileState × ReleaseResult :=
  match inst with
  | none => (none, file, ReleaseResult.ok)
  | some _ =>
    match readLockInfo file with
    | none => (none, file, ReleaseResult.ok)
    | some existing =>
      if isHeldByThisInstance env inst existing then
        (none, LockFileState.absent, ReleaseResult.ok)
      else
        (none, file, ReleaseResult.stolen)

/-! ## Progress reporting (`progress.CallbackReporter`)

Only the counter state is modelled; the wall-clock speed computation
and the callback fan-out do not affect the counters. -/

/-- The mutable fields of `progress.CallbackReporter`. -/
structure ReporterState where
  currentFile : String
  currentTotal : Int
  currentBytes : Int
  filesTotal : Int
  bytesTotal : Int
  filesCompleted : Int
  bytesCompleted : Int
deriving DecidableEq, Repr

/-- `CallbackReporter.Start`. -/
def reporterStart (s : ReporterState) (path : String) (totalBytes : Int) :
    ReporterState :=
  { s with currentFile := path, currentTotal := totalBytes, currentBytes := 0 }

/-- `CallbackReporter.Update`. -/
def reporterUpdate (s : ReporterState) (bytesTransferred : Int) : ReporterState :=
  { s with currentBytes := bytesTransferred }

/-- `CallbackReporter.Complete`: one more file, and the *declared* size
of the current file is added to the byte counter. -/
def reporterComplete (s : ReporterState) : ReporterState :=
  { s with filesCompleted := s.filesCompleted + 1,
           bytesCompleted := s.bytesCompleted + s.currentTotal }

/-- C4: the diff comparer's classification of two present regular files. -/
theorem compare_spec (s t : FileInfo)
    (hs : s.type = FileType.regular) (ht : t.type = FileType.regular) :
    (s.size ≠ t.size → Compare (some s) (some t) = DiffResult.fileModified) ∧
    (s.size = t.size → s.modTime = t.modTime →
      Compare (some s) (some t) = DiffResult.filesIdentical) ∧
    (s.size = t.size → s.modTime ≠ t.modTime → s.checksum ≠ "" → t.checksum ≠ "" →
      s.checksum = t.checksum →
      Compare (some s) (some t) = DiffResult.filesIdentical) ∧
    (s.size = t.size → s.modTime ≠ t.modTime → s.checksum ≠ "" → t.checksum ≠ "" →
      s.checksum ≠ t.checksum →
      Compare (some s) (some t) = DiffResult.fileModified) ∧
    (s.size = t.size → s.modTime ≠ t.modTime → s.checksum = "" → t.checksum = "" →
      Compare (some s) (some t) = DiffResult.filesIdentical) ∧
    (s.size = t.size → s.modTime ≠ t.modTime → ¬(s.checksum = "" ↔ t.checksum = "") →
      Compare (some s) (some t) = DiffResult.fileModified) := by
  have hfile : s.IsFile ∧ t.IsFile := by
    constructor <;> simp [FileInfo.IsFile, hs, ht]
  refine ⟨?_, ?_, ?_, ?_, ?_, ?_⟩
  · intro h
    simp [Compare, hfile, h]
  · intro h1 h2
    simp [Compare, hfile, h1, h2]
  · intro h1 h2 h3 h4 h5
    simp [Compare, hfile, h1, h2, h3, h4, h5]
  · intro h1 h2 h3 h4 h5
    simp [Compare, hfile, h1, h2, h3, h4, h5]
  · intro h1 h2 h3 h4
    simp [Compare, hfile, h1, h2, h3, h4]
  · intro h1 h2 h3
    have hor : (¬s.checksum = "" ∧ t.checksum = "") ∨
        (s.checksum = "" ∧ ¬t.checksum = "") := by tauto
    rcases hor with ⟨ha, hb⟩ | ⟨ha, hb⟩ <;>
      simp [Compare, hfile, h1, h2, ha, hb]

/-- C4 witness: evaluation of the comparer on concrete descriptors. -/
theorem compare_spec_witness :
    let f : FileInfo :=
      { path := "a.txt", type := FileType.regular, size := 5, modTime := 10,
        checksum := "aa", etag := "", isDeleted := false }
    let g : FileInfo :=
      { path := "a.txt", type := FileType.regular, size := 5, modTime := 20,
        checksum := "aa", etag := "", isDeleted := false }
    f.type = FileType.regular ∧ g.type = FileType.regular ∧
      f.size = g.size ∧ f.modTime ≠ g.modTime ∧ f.checksum ≠ "" ∧
      g.checksum ≠ "" ∧ f.checksum = g.checksum ∧
      Compare (some f) (some g) = DiffResult.filesIdentical := by
  intro f g
  refine ⟨rfl, rfl, rfl, by decide, by decide, by decide, rfl, ?_⟩
  exact (compare_spec f g rfl rfl).2.2.1 rfl (by decide) (by decide) (by decide) rfl

/-- C3: keep-newest resolution on two present regular files, and manual
always conflicts. -/
theorem resolve_spec (p : String) (s t : FileInfo)
    (hs : s.type = FileType.regular) (ht : t.type = FileType.regular) :
    (s.modTime > t.modTime →
      (Resolve ConflictStrategy.keepNewest p (some s) (some t)).type = ActionType.copy ∧
      (Resolve ConflictStrategy.keepNewest p (some s) (some t)).direction =
        SyncDirection.sourceToTarget) ∧
    (t.modTime > s.modTime →
      (Resolve ConflictStrategy.keepNewest p (some s) (some t)).type = ActionType.copy ∧
      (Resolve ConflictStrategy.keepNewest p (some s) (some t)).direction =
        SyncDirection.targetToSource) ∧
    (s.modTime = t.modTime → s.size = t.size →
      (Resolve ConflictStrategy.keepNewest p (some s) (some t)).type = ActionType.skip) ∧
    (s.modTime = t.modTime → s.size ≠ t.size →
      (Resolve ConflictStrategy.keepNewest p (some s) (some t)).type = ActionType.conflict ∧
      (Resolve ConflictStrategy.keepNewest p (some s) (some t)).reason =
        "identical time but different size") ∧
    (Resolve ConflictStrategy.manual p (some s) (some t)).type = ActionType.conflict := by
  refine ⟨?_, ?_, ?_, ?_, ?_⟩
  · intro h
    constructor <;> simp [Resolve, h]
  · intro h
    have h' : ¬ s.modTime > t.modTime := by omega
    constructor <;> simp [Resolve, h, h']
  · intro h hsz
    simp [Resolve, h, hsz]
  · intro h hsz
    constructor <;> simp [Resolve, h, hsz]
  · simp [Resolve]

/-- C3 witness: the resolver evaluated at concrete descriptors — a
newer source wins, and equal times with different sizes conflict. -/
theorem resolve_spec_witness :
    (mkFile "test.txt" 100 20).type = FileType.regular ∧
    (mkFile "test.txt" 200 10).type = FileType.regular ∧
    (mkFile "test.txt" 100 20).modTime > (mkFile "test.txt" 200 10).modTime ∧
    (Resolve ConflictStrategy.keepNewest "test.txt"
        (some (mkFile "test.txt" 100 20)) (some (mkFile "test.txt" 200 10))).type =
      ActionType.copy ∧
    (Resolve ConflictStrategy.keepNewest "test.txt"
        (some (mkFile "test.txt" 100 20)) (some (mkFile "test.txt" 200 10))).direction =
      SyncDirection.sourceToTarget ∧
    (Resolve ConflictStrategy.keepNewest "test.txt"
        (some (mkFile "test.txt" 100 10)) (some (mkFile "test.txt" 200 10))).type =
      ActionType.conflict ∧
    (Resolve ConflictStrategy.keepNewest "test.txt"
        (some (mkFile "test.txt" 100 10)) (some (mkFile "test.txt" 200 10))).reason =
      "identical time but different size" := by
  have h1 := (resolve_spec "test.txt" (mkFile "test.txt" 100 20)
    (mkFile "test.txt" 200 10) rfl rfl).1 (by decide)
  have h2 := (resolve_spec "test.txt" (mkFile "test.txt" 100 10)
    (mkFile "test.txt" 200 10) rfl rfl).2.2.2.1 rfl (by decide)
  exact ⟨rfl, rfl, by decide, h1.1, h1.2, h2.1, h2.2⟩

/-- C2 (amended): both planners' outputs are totally ordered by the key
`(type_rank, depth_key, path)` with ranks mkdir=1, copy=2, delete=3,
conflict=4, skip=5, where the depth key orders delete deep-to-shallow
and every other type — conflict and skip included — shallow-to-deep by
separator count, with the path as the final tiebreaker. -/
theorem plan_actions_sorted_by_key (fromMap toMap sourceMap targetMap : FsTree)
    (rule : SyncRule) (direction : SyncDirection) :
    ((PlanOneWay fromMap toMap rule direction).actions.Pairwise
      fun a b => sortKey a ≤ sortKey b) ∧
    ((PlanTwoWay sourceMap targetMap rule).actions.Pairwise
      fun a b => sortKey a ≤ sortKey b) :=
  ⟨sortActions_pairwise_key _, sortActions_pairwise_key _⟩

/-- C2 counterexample: a push plan holding two conflicts at different
depths is emitted deep-conflict-last, so it is *not* ordered by the
claimed key, which sorts conflicts by path alone ("a/x" < "b"). -/
theorem claim_order_counterexample :
    ((PlanOneWay [("a/x", mkFile "a/x" 1 1), ("b", mkFile "b" 1 1)]
        [("a/x", mkDir "a/x"), ("b", mkDir "b")] plainRule
        SyncDirection.sourceToTarget).actions.map (fun a => a.path) = ["b", "a/x"]) ∧
    ((PlanOneWay [("a/x", mkFile "a/x" 1 1), ("b", mkFile "b" 1 1)]
        [("a/x", mkDir "a/x"), ("b", mkDir "b")] plainRule
        SyncDirection.sourceToTarget).actions.map (fun a => a.type) =
      [ActionType.conflict, ActionType.conflict]) ∧
    ¬ ((PlanOneWay [("a/x", mkFile "a/x" 1 1), ("b", mkFile "b" 1 1)]
        [("a/x", mkDir "a/x"), ("b", mkDir "b")] plainRule
        SyncDirection.sourceToTarget).actions.Pairwise
      fun a b => claimKey a ≤ claimKey b) := by
  refine ⟨by decide, by decide, by decide⟩

/-- C1 counterexample: executing a push plan whose first action deletes
a path absent on the target fails with `ErrNotFound` and the run aborts
— the following mkdir is never reached and no state is returned. -/
theorem delete_not_tolerated_counterexample :
    (executeAction
        { type := ActionType.delete, direction := SyncDirection.sourceToTarget,
          path := "gone.txt", sourceInfo := none,
          targetInfo := some (mkFile "gone.txt" 5 1),
          reason := "file does not exist on source" } 0 [] [] =
      Except.error DomainErr.notFound) ∧
    (runActions
        [{ type := ActionType.delete, direction := SyncDirection.sourceToTarget,
           path := "gone.txt", sourceInfo := none,
           targetInfo := some (mkFile "gone.txt" 5 1),
           reason := "file does not exist on source" },
         { type := ActionType.mkdir, direction := SyncDirection.sourceToTarget,
           path := "d", sourceInfo := some (mkDir "d"), targetInfo := none,
           reason := "directory does not exist" }] 0 ([], []) =
      Except.error DomainErr.notFound) := by
  exact ⟨rfl, rfl⟩

/-- C1 (amended): a delete action invokes delete on the adapter selected
by the action's direction, but a not-found outcome is *not* tolerated:
when the named path is absent on the destination side the adapter
returns `ErrNotFound`, `executeAction` propagates it, and the run aborts
at that action instead of continuing. -/
theorem delete_absent_aborts (a : SyncAction) (now : Int) (src tgt : FsTree)
    (rest : List SyncAction) (htype : a.type = ActionType.delete) :
    (a.direction = SyncDirection.sourceToTarget → lookupFI tgt a.path = none →
      executeAction a now src tgt = Except.error DomainErr.notFound ∧
      runActions (a :: rest) now (src, tgt) = Except.error DomainErr.notFound) ∧
    (a.direction = SyncDirection.targetToSource → lookupFI src a.path = none →
      executeAction a now src tgt = Except.error DomainErr.notFound ∧
      runActions (a :: rest) now (src, tgt) = Except.error DomainErr.notFound) := by
  constructor <;> intro hdir habs <;>
    refine ⟨?_, ?_⟩ <;>
      simp [runActions, executeAction, adapterDelete, htype, hdir, habs]

/-- C1 witness: the amended theorem applied at a concrete plan state. -/
theorem delete_absent_aborts_witness :
    ({ type := ActionType.delete, direction := SyncDirection.sourceToTarget,
       path := "gone.txt", sourceInfo := none, targetInfo := none,
       reason := "file does not exist on source" } : SyncAction).type =
        ActionType.delete ∧
    ({ type := ActionType.delete, direction := SyncDirection.sourceToTarget,
       path := "gone.txt", sourceInfo := none, targetInfo := none,
       reason := "file does not exist on source" } : SyncAction).direction =
        SyncDirection.sourceToTarget ∧
    lookupFI [("kept.txt", mkFile "kept.txt" 3 3)] "gone.txt" = none ∧
    executeAction
      { type := ActionType.delete, direction := SyncDirection.sourceToTarget,
        path := "gone.txt", sourceInfo := none, targetInfo := none,
        reason := "file does not exist on source" }
      0 [] [("kept.txt", mkFile "kept.txt" 3 3)] = Except.error DomainErr.notFound := by
  refine ⟨rfl, rfl, by decide, ?_⟩
  exact ((delete_absent_aborts _ 0 [] [("kept.txt", mkFile "kept.txt" 3 3)] [] rfl).1
    rfl (by decide)).1

/-- A host where every signal-0 probe reports `ESRCH` (no such
process). -/
def probeEnv : LockEnv :=
  { hostname := "h1", pid := 42, now := 1000,
    signal := fun _ => SignalResult.esrch }

/-- A record naming a (dead) process on the local host. -/
def sameHostInfo : LockInfo :=
  { pid := 7, hostname := "h1", startTime := 0, ruleName := "r" }

/-- A record from another host. -/
def otherHostInfo : LockInfo :=
  { pid := 7, hostname := "h2", startTime := 0, ruleName := "r" }

/-- A host for the release scenarios. -/
def releaseEnv : LockEnv :=
  { hostname := "h1", pid := 42, now := 0,
    signal := fun _ => SignalResult.delivered }

/-- The in-memory holder record of this instance. -/
def heldInfo : LockInfo :=
  { pid := 42, hostname := "h1", startTime := 5, ruleName := "a" }

/-- An on-disk record differing from `heldInfo` in the rule name. -/
def diskInfo : LockInfo :=
  { pid := 42, hostname := "h1", startTime := 5, ruleName := "b" }

/-- C5: staleness of a persisted lock record — on the holder's host the
lock is stale exactly when the process is dead (a live process is never
stale, and a signal-0 `EPERM` result counts as alive); on another host
it is stale exactly when `now - start_time` exceeds the stale timeout,
whose default is 30 minutes. -/
theorem isStale_spec (env : LockEnv) (staleTimeout : Int) (info : LockInfo) :
    (info.hostname = env.hostname →
      (isStale env staleTimeout info = true ↔ processExists env info.pid = false)) ∧
    (info.hostname ≠ env.hostname →
      (isStale env staleTimeout info = true ↔
        env.now - info.startTime > staleTimeout)) ∧
    (env.signal info.pid = SignalResult.eperm → processExists env info.pid = true) ∧
    DefaultStaleTimeout = 30 * 60 * 1000000000 := by
  refine ⟨?_, ?_, ?_, rfl⟩
  · intro h
    cases hp : processExists env info.pid <;> simp [isStale, h, hp]
  · intro h
    have hb : (info.hostname == env.hostname) = false := by
      simp [h]
    by_cases ht : env.now - info.startTime > staleTimeout <;>
      simp [isStale, hb, ht]
  · intro h
    simp [processExists, h]

/-- C5 witness: a dead same-host process is stale; a cross-host record
is judged by elapsed time against the timeout only. -/
theorem isStale_spec_witness :
    sameHostInfo.hostname = probeEnv.hostname ∧
    otherHostInfo.hostname ≠ probeEnv.hostname ∧
    (isStale probeEnv 100 sameHostInfo = true ↔
      processExists probeEnv sameHostInfo.pid = false) ∧
    (isStale probeEnv 100 otherHostInfo = true ↔
      probeEnv.now - otherHostInfo.startTime > 100) := by
  refine ⟨rfl, by decide, ?_, ?_⟩
  · exact (isStale_spec probeEnv 100 sameHostInfo).1 rfl
  · exact (isStale_spec probeEnv 100 otherHostInfo).2.1 (by decide)

/-- C9: `Release` — with no in-memory holder, or with a missing or
unreadable lock file, it succeeds and leaves no holder; it reports
`stolen` exactly when a holder exists in memory and the readable
on-disk record does not match this instance (current pid and hostname,
held start time and rule name), and in that case the lock file is left
in place. -/
theorem release_spec (env : LockEnv) (inst : Option LockInfo)
    (file : LockFileState) :
    (inst = none → releaseLock env inst file = (none, file, ReleaseResult.ok)) ∧
    (readLockInfo file = none →
      releaseLock env inst file = (none, file, ReleaseResult.ok)) ∧
    ((releaseLock env inst file).2.2 = ReleaseResult.stolen ↔
      (inst ≠ none ∧ ∃ existing, readLockInfo file = some existing ∧
        isHeldByThisInstance env inst existing = false)) ∧
    ((releaseLock env inst file).2.2 = ReleaseResult.stolen →
      (releaseLock env inst file).2.1 = file ∧
        (releaseLock env inst file).1 = none) := by
  refine ⟨?_, ?_, ?_, ?_⟩
  · intro h
    simp [releaseLock, h]
  · intro h
    cases inst with
    | none => simp [releaseLock]
    | some mine => simp [releaseLock, h]
  · cases inst with
    | none => simp [releaseLock]
    | some mine =>
      cases hf : readLockInfo file with
      | none => simp [releaseLock, hf]
      | some existing =>
        cases hh : isHeldByThisInstance env (some mine) existing <;>
          simp [releaseLock, hf, hh]
  · intro h
    cases inst with
    | none => simp [releaseLock] at h
    | some mine =>
      cases hf : readLockInfo file with
      | none => simp [releaseLock, hf] at h
      | some existing =>
        cases hh : isHeldByThisInstance env (some mine) existing
        · simp [releaseLock, hf, hh]
        · simp [releaseLock, hf, hh] at h

/-- C9 witness: an absent lock file releases cleanly; an on-disk record
with a different rule name yields `stolen` and the file stays. -/
theorem release_spec_witness :
    (releaseLock releaseEnv (some heldInfo) LockFileState.absent =
      (none, LockFileState.absent, ReleaseResult.ok)) ∧
    ((releaseLock releaseEnv (some heldInfo)
        (LockFileState.written diskInfo)).2.2 = ReleaseResult.stolen) ∧
    ((releaseLock releaseEnv (some heldInfo)
        (LockFileState.written diskInfo)).2.1 = LockFileState.written diskInfo) := by
  have hst : (releaseLock releaseEnv (some heldInfo)
      (LockFileState.written diskInfo)).2.2 = ReleaseResult.stolen :=
    (release_spec releaseEnv (some heldInfo)
      (LockFileState.written diskInfo)).2.2.1.mpr
      ⟨by simp, diskInfo, rfl, by decide⟩
  refine ⟨?_, hst, ?_⟩
  · exact (release_spec releaseEnv (some heldInfo) LockFileState.absent).2.1 rfl
  · exact ((release_spec releaseEnv (some heldInfo)
      (LockFileState.written diskInfo)).2.2.2 hst).1

theorem foldl_update_state (updates : List Int) (s : ReporterState) :
    (updates.foldl reporterUpdate s).filesCompleted = s.filesCompleted ∧
    (updates.foldl reporterUpdate s).bytesCompleted = s.bytesCompleted ∧
    (updates.foldl reporterUpdate s).currentTotal = s.currentTotal := by
  induction updates generalizing s with
  | nil => exact ⟨rfl, rfl, rfl⟩
  | cons u rest ih => simpa [reporterUpdate] using ih (reporterUpdate s u)

/-- C10: after `Start(path, totalBytes)` and any sequence of `Update`
calls, `Complete()` raises the files-completed counter by exactly one
and the bytes-completed counter by the `totalBytes` declared to the
most recent `Start`, regardless of the bytes reported by `Update`. -/
theorem complete_counters (s : ReporterState) (path : String)
    (totalBytes : Int) (updates : List Int) :
    (reporterComplete
        (updates.foldl reporterUpdate (reporterStart s path totalBytes))).filesCompleted =
      s.filesCompleted + 1 ∧
    (reporterComplete
        (updates.foldl reporterUpdate (reporterStart s path totalBytes))).bytesCompleted =
      s.bytesCompleted + totalBytes := by
  obtain ⟨h1, h2, h3⟩ := foldl_update_state updates (reporterStart s path totalBytes)
  simp only [reporterStart] at h1 h2 h3
  constructor
  · simp [reporterComplete, reporterStart, h1]
  · simp [reporterComplete, reporterStart, h2, h3]


/-! ## Association-list lemmas for the executor state -/

theorem lookupFI_none_iff (t : FsTree) (p : String) :
    lookupFI t p = none ↔ p ∉ t.map Prod.fst := by
  induction t with
  | nil => simp [lookupFI]
  | cons e rest ih =>
    obtain ⟨e1, e2⟩ := e
    by_cases hep : e1 = p <;> simp_all [lookupFI]
    exact fun _ hc => hep hc.symm

theorem Resolve_path (strategy : ConflictStrategy) (p : String)
    (src tgt : Option FileInfo) : (Resolve strategy p src tgt).path = p := by
  match src, tgt with
  | none, none => rfl
  | some _, none => rfl
  | none, some _ => rfl
  | some s, some t =>
    match strategy with
    | ConflictStrategy.keepLocal => rfl
    | ConflictStrategy.keepRemote => rfl
    | ConflictStrategy.manual => rfl
    | ConflictStrategy.keepNewest =>
      by_cases h1 : s.modTime > t.modTime
      · simp [Resolve, h1]
      · by_cases h2 : t.modTime > s.modTime
        · simp [Resolve, h1, h2]
        · by_cases h3 : s.size = t.size
          · simp [Resolve, h1, h2, h3]
          · simp [Resolve, h1, h2, h3]

theorem planCopyStep_some {toMap : FsTree} {rule : SyncRule}
    {direction : SyncDirection} {e : String × FileInfo} {a : SyncAction}
    (h : planCopyStep toMap rule direction e = some a) :
    a.path = e.1 ∧ a.direction = direction ∧
    shouldIgnore e.1 rule.ignorePatterns = false ∧
    (a.type = ActionType.mkdir ∨ a.type = ActionType.copy ∨
      a.type = ActionType.conflict) := by
  simp only [planCopyStep] at h
  split at h
  · exact absurd h (by simp)
  · rename_i hig
    have hig' : shouldIgnore e.1 rule.ignorePatterns = false :=
      Bool.eq_false_iff.mpr hig
    split at h
    · split at h <;>
        (simp only [Option.some.injEq] at h; subst h;
         exact ⟨rfl, rfl, hig', by simp⟩)
    · split at h
      · simp only [Option.some.injEq] at h
        subst h
        exact ⟨rfl, rfl, hig', by simp⟩
      · split at h
        · split at h
          · simp only [Option.some.injEq] at h
            subst h
            exact ⟨rfl, rfl, hig', by simp⟩
          · exact absurd h (by simp)
        · exact absurd h (by simp)

theorem planDeleteStep_some {fromMap : FsTree} {rule : SyncRule}
    {direction : SyncDirection} {e : String × FileInfo} {a : SyncAction}
    (h : planDeleteStep fromMap rule direction e = some a) :
    a.path = e.1 ∧ a.direction = direction ∧
    shouldIgnore e.1 rule.ignorePatterns = false ∧
    a.type = ActionType.delete ∧ lookupFI fromMap e.1 = none ∧
    a.targetInfo = some e.2 ∧ a.sourceInfo = none := by
  simp only [planDeleteStep] at h
  split at h
  · exact absurd h (by simp)
  · rename_i hig
    have hig' : shouldIgnore e.1 rule.ignorePatterns = false :=
      Bool.eq_false_iff.mpr hig
    split at h
    · exact absurd h (by simp)
    · rename_i hlk
      simp only [Option.some.injEq] at h
      subst h
      exact ⟨rfl, rfl, hig', rfl, hlk, rfl, rfl⟩

theorem planTwoWayStep_some {sourceMap targetMap : FsTree} {rule : SyncRule}
    {p : String} {a : SyncAction}
    (h : planTwoWayStep sourceMap targetMap rule p = some a) :
    a.path = p ∧ shouldIgnore p rule.ignorePatterns = false := by
  simp only [planTwoWayStep] at h
  split at h
  · exact absurd h (by simp)
  · rename_i hig
    have hig' : shouldIgnore p rule.ignorePatterns = false :=
      Bool.eq_false_iff.mpr hig
    split at h
    · split at h <;>
        (simp only [Option.some.injEq] at h; subst h; exact ⟨rfl, hig'⟩)
    · split at h <;>
        (simp only [Option.some.injEq] at h; subst h; exact ⟨rfl, hig'⟩)
    · split at h
      · simp only [Option.some.injEq] at h
        subst h
        exact ⟨rfl, hig'⟩
      · split at h
        · split at h
          · simp only [Option.some.injEq] at h
            subst h
            exact ⟨Resolve_path _ _ _ _, hig'⟩
          · exact absurd h (by simp)
        · exact absurd h (by simp)
    · exact absurd h (by simp)

theorem planOneWay_not_ignored {fm tm : FsTree} {rule : SyncRule}
    {direction : SyncDirection} {a : SyncAction}
    (h : a ∈ (PlanOneWay fm tm rule direction).actions) :
    shouldIgnore a.path rule.ignorePatterns = false := by
  have h2 : a ∈ fm.filterMap (planCopyStep tm rule direction) ++
      tm.filterMap (planDeleteStep fm rule direction) :=
    mem_sortActions.mp h
  rcases List.mem_append.mp h2 with hc | hd
  · obtain ⟨e, -, hstep⟩ := List.mem_filterMap.mp hc
    obtain ⟨hpath, -, hig, -⟩ := planCopyStep_some hstep
    rw [hpath]
    exact hig
  · obtain ⟨e, -, hstep⟩ := List.mem_filterMap.mp hd
    obtain ⟨hpath, -, hig, -⟩ := planDeleteStep_some hstep
    rw [hpath]
    exact hig

theorem planTwoWay_not_ignored {sm tm : FsTree} {rule : SyncRule}
    {a : SyncAction} (h : a ∈ (PlanTwoWay sm tm rule).actions) :
    shouldIgnore a.path rule.ignorePatterns = false := by
  have h2 : a ∈ ((sm.map Prod.fst ++ tm.map Prod.fst).dedup).filterMap
      (planTwoWayStep sm tm rule) := mem_sortActions.mp h
  obtain ⟨p, -, hstep⟩ := List.mem_filterMap.mp h2
  obtain ⟨hpath, hig⟩ := planTwoWayStep_some hstep
  rw [hpath]
  exact hig

/-- C6: a path matching at least one ignore pattern — with glob
semantics against its base name or its full relative path — appears in
no action of a one-way or two-way plan. -/
theorem ignored_path_in_no_action (fromMap toMap sourceMap targetMap : FsTree)
    (rule : SyncRule) (direction : SyncDirection) (path : String)
    (hmatch : ∃ pattern ∈ rule.ignorePatterns,
      goMatch pattern (basePath path) = some true ∨
        goMatch pattern path = some true) :
    (∀ a ∈ (PlanOneWay fromMap toMap rule direction).actions, a.path ≠ path) ∧
    (∀ a ∈ (PlanTwoWay sourceMap targetMap rule).actions, a.path ≠ path) := by
  have hig : shouldIgnore path rule.ignorePatterns = true := by
    obtain ⟨pat, hp, hm⟩ := hmatch
    unfold shouldIgnore
    rw [List.any_eq_true]
    refine ⟨pat, hp, ?_⟩
    rcases hm with hm | hm <;> simp [hm]
  constructor
  · intro a ha hpa
    have hfa := planOneWay_not_ignored ha
    rw [hpa, hig] at hfa
    exact Bool.true_eq_false.mp hfa
  · intro a ha hpa
    have hfa := planTwoWay_not_ignored ha
    rw [hpa, hig] at hfa
    exact Bool.true_eq_false.mp hfa

set_option maxHeartbeats 2000000 in
/-- The concrete glob evaluation backing the C6 witness: `*.log`
matches the base name of `debug.log`. -/
theorem logMatchEval : goMatch "*.log" (basePath "debug.log") = some true := by
  simp [goMatch, basePath, goMatchAux, matchChunkGo, starTries, checkRestValid,
    scanChunk, stripStars, scanBody, matchRanges, runeStep, classNeg]

/-- C6 witness: `debug.log` matches the pattern `*.log`, hence no action
of the concrete push or two-way plan names it. -/
theorem ignored_path_in_no_action_witness :
    (∃ pattern ∈ ["*.log"],
      goMatch pattern (basePath "debug.log") = some true ∨
        goMatch pattern "debug.log" = some true) ∧
    (∀ a ∈ (PlanOneWay [("keep.txt", mkFile "keep.txt" 1 1),
        ("debug.log", mkFile "debug.log" 2 2)] []
        { name := "r", ignorePatterns := ["*.log"],
          conflictStrategy := ConflictStrategy.keepNewest }
        SyncDirection.sourceToTarget).actions, a.path ≠ "debug.log") := by
  have hm : goMatch "*.log" (basePath "debug.log") = some true :=
    logMatchEval
  have hex : ∃ pattern ∈ ["*.log"],
      goMatch pattern (basePath "debug.log") = some true ∨
        goMatch pattern "debug.log" = some true :=
    ⟨"*.log", by simp, Or.inl hm⟩
  refine ⟨hex, ?_⟩
  exact (ignored_path_in_no_action
    [("keep.txt", mkFile "keep.txt" 1 1), ("debug.log", mkFile "debug.log" 2 2)]
    [] [] []
    { name := "r", ignorePatterns := ["*.log"],
      conflictStrategy := ConflictStrategy.keepNewest }
    SyncDirection.sourceToTarget "debug.log" hex).1

/-- Order safety of an action list: a parent's mkdir precedes any copy
below it, and a delete below precedes its parent's delete. -/
def orderSafe (actions : List SyncAction) : Prop :=
  (∀ i j : Fin actions.length,
      (actions.get i).type = ActionType.mkdir →
      (actions.get j).type = ActionType.copy →
      isParentOf (actions.get i).path (actions.get j).path →
      (i : Nat) < j) ∧
  (∀ i j : Fin actions.length,
      (actions.get i).type = ActionType.delete →
      (actions.get j).type = ActionType.delete →
      isParentOf (actions.get j).path (actions.get i).path →
      (i : Nat) < j)

theorem orderSafe_sortActions (l : List SyncAction) :
    orderSafe (sortActions l) := by
  constructor
  · intro i j hmk hcp hpar
    rcases Nat.lt_trichotomy (i : Nat) (j : Nat) with h | h | h
    · exact h
    · exfalso
      have : i = j := Fin.ext h
      subst this
      rw [hmk] at hcp
      exact ActionType.noConfusion hcp
    · exfalso
      have hle := sorted_key_of_plan l j i h
      have hrk := sortKey_le_rank hle
      rw [hcp, hmk] at hrk
      simp [actionTypeOrder] at hrk
  · intro i j hdi hdj hpar
    rcases Nat.lt_trichotomy (i : Nat) (j : Nat) with h | h | h
    · exact h
    · exfalso
      have : i = j := Fin.ext h
      subst this
      exact isParentOf_irrefl _ hpar
    · exfalso
      have hle := sorted_key_of_plan l j i h
      have hsep := sortKey_le_delete hdj hdi hle
      have hlt := isParentOf_sepCount hpar
      omega

/-- C7: in every plan the planner outputs, when A's path is a parent
directory of B's path, `mkdir A` precedes `copy B` and `delete B`
precedes `delete A`. -/
theorem plan_order_safety (fromMap toMap sourceMap targetMap : FsTree)
    (rule : SyncRule) (direction : SyncDirection) :
    orderSafe (PlanOneWay fromMap toMap rule direction).actions ∧
    orderSafe (PlanTwoWay sourceMap targetMap rule).actions :=
  ⟨orderSafe_sortActions _, orderSafe_sortActions _⟩

/-- The push plan of a directory and a file below it into an empty
target. -/
def mkdirCopyPlan : SyncPlan :=
  PlanOneWay [("a", mkDir "a"), ("a/b", mkFile "a/b" 5 7)] [] plainRule
    SyncDirection.sourceToTarget

/-- The push plan of an empty source against a directory and a file
below it. -/
def deleteDeepPlan : SyncPlan :=
  PlanOneWay [] [("a", mkDir "a"), ("a/b", mkFile "a/b" 5 7)] plainRule
    SyncDirection.sourceToTarget

/-- C7 witness: in the concrete plans, `mkdir "a"` lands before
`copy "a/b"` and `delete "a/b"` lands before `delete "a"`. -/
theorem plan_order_safety_witness :
    isParentOf "a" "a/b" ∧
    (mkdirCopyPlan.actions.map fun x => (x.type, x.path)) =
      [(ActionType.mkdir, "a"), (ActionType.copy, "a/b")] ∧
    (deleteDeepPlan.actions.map fun x => (x.type, x.path)) =
      [(ActionType.delete, "a/b"), (ActionType.delete, "a")] ∧
    (0 : Nat) < 1 := by
  have hpar : isParentOf "a" "a/b" := ⟨['b'], rfl⟩
  refine ⟨hpar, by decide, by decide, ?_⟩
  have hsafe := (plan_order_safety [("a", mkDir "a"), ("a/b", mkFile "a/b" 5 7)]
    [] [] [] plainRule SyncDirection.sourceToTarget).1
  have h0 : (mkdirCopyPlan.actions.get ⟨0, by decide⟩).type = ActionType.mkdir := by
    decide
  have h1 : (mkdirCopyPlan.actions.get ⟨1, by decide⟩).type = ActionType.copy := by
    decide
  have hp : isParentOf (mkdirCopyPlan.actions.get ⟨0, by decide⟩).path
      (mkdirCopyPlan.actions.get ⟨1, by decide⟩).path := by
    have e0 : (mkdirCopyPlan.actions.get ⟨0, by decide⟩).path = "a" := by decide
    have e1 : (mkdirCopyPlan.actions.get ⟨1, by decide⟩).path = "a/b" := by decide
    rw [e0, e1]
    exact hpar
  exact hsafe.1 ⟨0, by decide⟩ ⟨1, by decide⟩ h0 h1 hp

/-! ## C8: the push round-trip -/

theorem compare_self_file {f : FileInfo} (h : f.IsFile = true) :
    Compare (some f) (some f) = DiffResult.filesIdentical := by
  simp [Compare, h]

theorem writtenFile_isFile (p : String) (f : FileInfo) (tau : Int) :
    (writtenFile p f tau).IsFile = true := by
  simp [writtenFile, FileInfo.IsFile]

